import Mathlib

/-!
# Verification of the right-aligned-code extension

Shallow embedding of the alignment logic of the `right-aligned-code`
editor extension, and proofs of the specified properties.

Lines are modelled as lists of characters.  The content-aware alignment
pass (the `runAlignment` variant) measures each line's leading
whitespace, computes a desired leading width from the maximum content
length, and rewrites the leading-whitespace span of every line whose
current width differs from the desired one.  The command variant offers
`alignDocument` (pad every line to the longest full line length) and
`unalignDocument` (strip one leading space per line when present), and a
Fibonacci-based indent-width table.
-/

namespace RightAligned

/-- A document line, as its list of characters. -/
abbrev Line := List Char

/-- Leading-whitespace width of a line: the length of the span matched
by the whitespace pattern at the start of the line. -/
def leading (t : Line) : Nat := (t.takeWhile Char.isWhitespace).length

/-- Content length of a line: its length minus its leading width. -/
def contentLen (t : Line) : Nat := t.length - leading t

/-- Maximum content length over the lines of a document, computed as in
the source by a running maximum starting from 0. -/
def maxContentLen (doc : List Line) : Nat :=
  doc.foldl (fun m t => max m (contentLen t)) 0

/-- Desired leading width of a line, as computed by the source:
the maximum of 0 and the difference of the maximal content length and
this line's content length. -/
def desiredLeading (maxC cl : Nat) : Nat :=
  (max 0 ((maxC : Int) - (cl : Int))).toNat

/-- A run of `n` space characters. -/
def spaces (n : Nat) : Line := List.replicate n ' '

/-- One entry of the edit batch built by `runAlignment`: the line index,
the end column of the replaced leading-whitespace range, and the
replacement text. -/
structure AlignEdit where
  line : Nat
  replaceEnd : Nat
  newText : Line
  deriving DecidableEq

/-- Edit-collection loop of `runAlignment`: a line enters the edit set
exactly when its current leading width differs from the desired one. -/
def computeEditsAux (maxC : Nat) : List Line → Nat → List AlignEdit
  | [], _ => []
  | t :: ts, i =>
    if leading t ≠ desiredLeading maxC (contentLen t) then
      { line := i, replaceEnd := leading t,
        newText := spaces (desiredLeading maxC (contentLen t)) } ::
        computeEditsAux maxC ts (i + 1)
    else
      computeEditsAux maxC ts (i + 1)

/-- The edit set one recalculation pass produces for a document. -/
def computeEdits (doc : List Line) : List AlignEdit :=
  computeEditsAux (maxContentLen doc) doc 0

/-- Effect of one pass on a single line: when the current leading width
differs from the desired one, the leading-whitespace range is replaced
by the desired number of spaces; otherwise the line is untouched. -/
def alignLine (maxC : Nat) (t : Line) : Line :=
  if leading t = desiredLeading maxC (contentLen t) then t
  else spaces (desiredLeading maxC (contentLen t)) ++ t.drop (leading t)

/-- One right-alignment pass over a whole document. -/
def alignPass (doc : List Line) : List Line :=
  doc.map (alignLine (maxContentLen doc))

/-- Content offset of a selection endpoint, captured before the edit:
the maximum of 0 and the difference of the endpoint's character position
and the old leading width of its line. -/
def contentOffset (ch lead : Nat) : Int := max 0 ((ch : Int) - (lead : Int))

/-- Caret column set after the edit for an endpoint on line `i` at
character position `ch`: the desired leading width plus the content
offset, floored at 0 and clamped to the new line length. -/
def restoredCol (doc : List Line) (i ch : Nat) : Nat :=
  (min (max 0 ((desiredLeading (maxContentLen doc) (contentLen (doc.getD i [])) : Int)
        + contentOffset ch (leading (doc.getD i []))))
      ((((alignPass doc).getD i []).length : Int))).toNat

/-- Iteration state of the `fibonacci` loop: the pair `(a, b)` updated
`k` more times. -/
def fibLoop : Nat → Nat × Nat → Nat × Nat
  | 0, p => p
  | k + 1, (a, b) => fibLoop k (b, a + b)

/-- The source's `fibonacci`: returns `n` for `n ≤ 1`, otherwise runs
the two-register loop from `(0, 1)` for indices `2` to `n` and returns
the second register. -/
def fibonacci (n : Nat) : Nat :=
  if n ≤ 1 then n else (fibLoop (n - 1) (0, 1)).2

/-- The source's `getFibonacciSpacesForDepth`: 0 at depth 0, otherwise
`fibonacci (depth + 1)` times the multiplier 2. -/
def getFibonacciSpacesForDepth (depth : Nat) : Nat :=
  if depth = 0 then 0 else fibonacci (depth + 1) * 2

/-- Maximum full line length over a document (used by `alignDocument`),
computed as a running maximum starting from 0. -/
def maxLineLen (doc : List Line) : Nat :=
  doc.foldl (fun m t => max m t.length) 0

/-- The `align` command: insert left padding on every line whose length
is below the maximal full line length, so all right edges line up. -/
def alignDocument (doc : List Line) : List Line :=
  doc.map (fun t =>
    if 0 < maxLineLen doc - t.length then
      spaces (maxLineLen doc - t.length) ++ t
    else t)

/-- The `unalign` command on one line: delete the first character when
the line is nonempty and starts with a space. -/
def unalignLine : Line → Line
  | [] => []
  | c :: rest => if c = ' ' then rest else c :: rest

/-- The `unalign` command: strip one leading space per line. -/
def unalignDocument (doc : List Line) : List Line := doc.map unalignLine

/-- Minimum full line length over a document (the maximal line length
when the document is empty). -/
def minLineLen (doc : List Line) : Nat :=
  (doc.map List.length).foldr min (maxLineLen doc)

/-- The widest left padding the `align` command inserts on any line:
maximal minus minimal full line length. -/
def alignPad (doc : List Line) : Nat := maxLineLen doc - minLineLen doc

/-- Outcome of one run of the alignment pass: the re-entrancy busy flag
at exit, and the diagnostic lines written. -/
structure AlignOutcome where
  busy : Bool
  log : List String
  deriving DecidableEq

/-- Control flow of `runAlignment` around the busy flag: early returns
when the document is closed or no editor shows it leave the flag
untouched; otherwise the flag is set, edits are computed (fallibly),
an empty edit set returns early, a nonempty one is applied (fallibly);
any exception is caught and logged, and a finally-style cleanup resets
the flag on every path through the try block. -/
def runAlignmentFlow (busy0 docClosed editorFound : Bool)
    (computeRes : Except String (List AlignEdit))
    (applyRes : Except String Unit) : AlignOutcome :=
  if docClosed then { busy := busy0, log := [] }
  else if editorFound = false then { busy := busy0, log := [] }
  else
    let body : Except String AlignOutcome :=
      match computeRes with
      | Except.error e => Except.error e
      | Except.ok edits =>
        if edits.isEmpty then Except.ok { busy := false, log := [] }
        else
          match applyRes with
          | Except.error e => Except.error e
          | Except.ok _ => Except.ok { busy := true, log := [] }
    match body with
    | Except.ok o => { busy := false, log := o.log }
    | Except.error e => { busy := false, log := ["Error aligning: " ++ e] }

/-! ## Helper lemmas about leading whitespace -/

theorem takeWhile_dropWhile_nil (p : Char → Bool) (t : List Char) :
    (t.dropWhile p).takeWhile p = [] := by
  induction t with
  | nil => rfl
  | cons c ts ih =>
    by_cases h : p c
    · simpa [List.dropWhile_cons, h] using ih
    · simp [List.dropWhile_cons, h, List.takeWhile_cons]

theorem leading_dropWhile (t : Line) :
    leading (t.dropWhile Char.isWhitespace) = 0 := by
  unfold leading
  rw [takeWhile_dropWhile_nil]
  rfl

theorem leading_le_length (t : Line) : leading t ≤ t.length := by
  have h := congrArg List.length
    (List.takeWhile_append_dropWhile (p := Char.isWhitespace) (l := t))
  rw [List.length_append] at h
  unfold leading
  omega

theorem drop_leading (t : Line) :
    t.drop (leading t) = t.dropWhile Char.isWhitespace := by
  have h : (t.takeWhile Char.isWhitespace ++ t.dropWhile Char.isWhitespace).drop
      (leading t) = t.dropWhile Char.isWhitespace := by
    unfold leading
    exact List.drop_left _ _
  rwa [List.takeWhile_append_dropWhile] at h

theorem leading_cons_space (t : Line) : leading (' ' :: t) = leading t + 1 := by
  unfold leading
  rw [List.takeWhile_cons]
  simp [Nat.add_comm]

theorem leading_spaces_append (n : Nat) (t : Line) :
    leading (spaces n ++ t) = n + leading t := by
  induction n with
  | zero => simp [spaces]
  | succ k ih =>
    have hs : spaces (k + 1) ++ t = ' ' :: (spaces k ++ t) := rfl
    rw [hs, leading_cons_space, ih]
    omega

/-! ## Helper lemmas about one pass over a line -/

theorem leading_alignLine (m : Nat) (t : Line) :
    leading (alignLine m t) = desiredLeading m (contentLen t) := by
  unfold alignLine
  by_cases h : leading t = desiredLeading m (contentLen t)
  · rw [if_pos h, h]
  · rw [if_neg h, drop_leading, leading_spaces_append, leading_dropWhile]
    omega

theorem length_alignLine (m : Nat) (t : Line) :
    (alignLine m t).length = desiredLeading m (contentLen t) + contentLen t := by
  unfold alignLine
  by_cases h : leading t = desiredLeading m (contentLen t)
  · rw [if_pos h, ← h]
    have := leading_le_length t
    unfold contentLen
    omega
  · rw [if_neg h]
    have := leading_le_length t
    simp only [List.length_append, spaces, List.length_replicate, List.length_drop]
    unfold contentLen
    omega

theorem contentLen_alignLine (m : Nat) (t : Line) :
    contentLen (alignLine m t) = contentLen t := by
  have h1 := length_alignLine m t
  have h2 := leading_alignLine m t
  unfold contentLen at h1 h2 ⊢
  omega

/-! ## Helper lemmas about running maxima and minima -/

theorem foldl_max_le_init (f : Line → Nat) (l : List Line) (a : Nat) :
    a ≤ l.foldl (fun m t => max m (f t)) a := by
  induction l generalizing a with
  | nil => simp
  | cons x xs ih =>
    simp only [List.foldl_cons]
    exact le_trans (le_max_left a (f x)) (ih _)

theorem mem_le_foldl_max (f : Line → Nat) {t : Line} {l : List Line}
    (h : t ∈ l) (a : Nat) :
    f t ≤ l.foldl (fun m s => max m (f s)) a := by
  induction l generalizing a with
  | nil => cases h
  | cons x xs ih =>
    simp only [List.foldl_cons]
    rcases List.mem_cons.mp h with rfl | hmem
    · exact le_trans (le_max_right a (f t)) (foldl_max_le_init f xs _)
    · exact ih hmem _

theorem contentLen_le_maxContentLen {t : Line} {doc : List Line} (h : t ∈ doc) :
    contentLen t ≤ maxContentLen doc :=
  mem_le_foldl_max contentLen h 0

theorem length_le_maxLineLen {t : Line} {doc : List Line} (h : t ∈ doc) :
    t.length ≤ maxLineLen doc :=
  mem_le_foldl_max List.length h 0

theorem foldr_min_le {x : Nat} {l : List Nat} (h : x ∈ l) (a : Nat) :
    l.foldr min a ≤ x := by
  induction l with
  | nil => cases h
  | cons y ys ih =>
    simp only [List.foldr_cons]
    rcases List.mem_cons.mp h with rfl | hm
    · exact min_le_left _ _
    · exact le_trans (min_le_right _ _) (ih hm)

theorem minLineLen_le {t : Line} {doc : List Line} (h : t ∈ doc) :
    minLineLen doc ≤ t.length :=
  foldr_min_le (List.mem_map_of_mem _ h) _

theorem foldl_contentLen_map (M : Nat) (l : List Line) (a : Nat) :
    (l.map (alignLine M)).foldl (fun m t => max m (contentLen t)) a
      = l.foldl (fun m t => max m (contentLen t)) a := by
  induction l generalizing a with
  | nil => rfl
  | cons x xs ih =>
    simp only [List.map_cons, List.foldl_cons, contentLen_alignLine]
    exact ih _

theorem maxContentLen_alignPass (doc : List Line) :
    maxContentLen (alignPass doc) = maxContentLen doc := by
  unfold alignPass maxContentLen
  exact foldl_contentLen_map _ _ _

theorem desiredLeading_eq (m c : Nat) : desiredLeading m c = m - c := by
  unfold desiredLeading
  omega

/-! ## Helper lemmas about indexing -/

theorem getD_map (f : Line → Line) (l : List Line) (i : Nat) (h : i < l.length) :
    (l.map f).getD i [] = f (l.getD i []) := by
  induction l generalizing i with
  | nil => simp at h
  | cons x xs ih =>
    cases i with
    | zero => rfl
    | succ j =>
      simp only [List.map_cons, List.getD_cons_succ]
      exact ih j (by simp at h; omega)

theorem getD_mem {l : List Line} {i : Nat} (h : i < l.length) :
    l.getD i [] ∈ l := by
  induction l generalizing i with
  | nil => simp at h
  | cons x xs ih =>
    cases i with
    | zero => exact List.mem_cons_self _ _
    | succ j =>
      exact List.mem_cons_of_mem _ (ih (by simp at h; omega))

/-! ## Helper lemmas about the Fibonacci helpers -/

theorem fibLoop_fib (k m : Nat) :
    fibLoop k (Nat.fib m, Nat.fib (m + 1)) = (Nat.fib (m + k), Nat.fib (m + k + 1)) := by
  induction k generalizing m with
  | zero => simp [fibLoop]
  | succ j ih =>
    show fibLoop j (Nat.fib (m + 1), Nat.fib m + Nat.fib (m + 1)) = _
    rw [← Nat.fib_add_two]
    have h := ih (m + 1)
    have e1 : m + 1 + j = m + (j + 1) := by omega
    have e2 : m + 1 + 1 = m + 2 := by omega
    rw [e1, e2] at h
    rw [h]

theorem fibonacci_eq_fib (n : Nat) : fibonacci n = Nat.fib n := by
  unfold fibonacci
  by_cases h : n ≤ 1
  · rw [if_pos h]
    interval_cases n
    · simp
    · simp
  · rw [if_neg h]
    have h01 : ((0 : Nat), (1 : Nat)) = (Nat.fib 0, Nat.fib 1) := by simp
    rw [h01, fibLoop_fib]
    show Nat.fib (0 + (n - 1) + 1) = Nat.fib n
    congr 1
    omega

/-! ## Helper lemmas about the unalign command -/

theorem unalignLine_fixed {t : Line} (h : t.head? ≠ some ' ') :
    unalignLine t = t := by
  cases t with
  | nil => rfl
  | cons c r =>
    have hc : ¬(c = ' ') := by simpa using h
    simp [unalignLine, hc]

theorem iterate_unalignLine_fixed {t : Line} (h : t.head? ≠ some ' ') (k : Nat) :
    unalignLine^[k] t = t := by
  induction k with
  | zero => rfl
  | succ j ih => rw [Function.iterate_succ_apply, unalignLine_fixed h, ih]

theorem unalign_iter_spaces {t : Line} (h : t.head? ≠ some ' ') :
    ∀ k p : Nat, p ≤ k → unalignLine^[k] (spaces p ++ t) = t := by
  intro k
  induction k with
  | zero =>
    intro p hp
    have hz : p = 0 := by omega
    subst hz
    simp [spaces]
  | succ j ih =>
    intro p hp
    cases p with
    | zero => simpa [spaces] using iterate_unalignLine_fixed h (j + 1)
    | succ q =>
      rw [Function.iterate_succ_apply]
      have hstep : unalignLine (spaces (q + 1) ++ t) = spaces q ++ t := by
        show unalignLine (' ' :: (spaces q ++ t)) = spaces q ++ t
        simp [unalignLine]
      rw [hstep]
      exact ih q (by omega)

theorem unalignDocument_iterate (k : Nat) (doc : List Line) :
    unalignDocument^[k] doc = doc.map (unalignLine^[k]) := by
  induction k generalizing doc with
  | zero => simp
  | succ j ih =>
    rw [Function.iterate_succ_apply]
    have hu : unalignDocument doc = doc.map unalignLine := rfl
    rw [hu, ih, List.map_map, Function.iterate_succ]

theorem computeEditsAux_eq_nil (M : Nat) (l : List Line)
    (h : ∀ t ∈ l, leading t = desiredLeading M (contentLen t)) :
    ∀ i, computeEditsAux M l i = [] := by
  induction l with
  | nil => intro i; rfl
  | cons x xs ih =>
    intro i
    unfold computeEditsAux
    rw [if_neg (not_not_intro (h x (List.mem_cons_self _ _)))]
    exact ih (fun t ht => h t (List.mem_cons_of_mem _ ht)) (i + 1)

theorem alignDocument_branch (doc : List Line) (t : Line) :
    (if 0 < maxLineLen doc - t.length then
        spaces (maxLineLen doc - t.length) ++ t
      else t)
      = spaces (maxLineLen doc - t.length) ++ t := by
  by_cases hp : 0 < maxLineLen doc - t.length
  · rw [if_pos hp]
  · rw [if_neg hp]
    have h0 : maxLineLen doc - t.length = 0 := by omega
    rw [h0]
    rfl

/-! ## The claims -/

/-- C2: in right-alignment mode, every line of the document ends the pass
with a leading-whitespace width equal to the maximum content length over
all lines minus that line's content length, clamped below at 0. -/
theorem c2_desired_width (doc : List Line) (i : Nat) (h : i < doc.length) :
    ((leading ((alignPass doc).getD i [])) : Int)
      = max ((maxContentLen doc : Int) - (contentLen (doc.getD i []) : Int)) 0 := by
  unfold alignPass
  rw [getD_map _ _ _ h, leading_alignLine]
  unfold desiredLeading
  omega

/-- Witness for C2 at the document `["a", "bb"]`, line 0. -/
theorem c2_desired_width_witness :
    0 < ([['a'], ['b', 'b']] : List Line).length ∧
    ((leading ((alignPass [['a'], ['b', 'b']]).getD 0 [])) : Int)
      = max ((maxContentLen [['a'], ['b', 'b']] : Int)
          - (contentLen (([['a'], ['b', 'b']] : List Line).getD 0 []) : Int)) 0 :=
  ⟨by decide, c2_desired_width [['a'], ['b', 'b']] 0 (by decide)⟩

/-- C5: after a right-alignment pass, every line satisfies
`leading + contentLen = maxContentLen` (the maximum content length over
all lines of the resulting document) and `leading ≥ 0`. -/
theorem c5_post_invariant (doc : List Line) (i : Nat) (h : i < doc.length) :
    leading ((alignPass doc).getD i []) + contentLen ((alignPass doc).getD i [])
        = maxContentLen (alignPass doc)
    ∧ 0 ≤ leading ((alignPass doc).getD i []) := by
  constructor
  · rw [maxContentLen_alignPass]
    unfold alignPass
    rw [getD_map _ _ _ h, leading_alignLine, contentLen_alignLine, desiredLeading_eq]
    have := contentLen_le_maxContentLen (getD_mem h)
    omega
  · exact Nat.zero_le _

/-- Witness for C5 at the document `["a", "bb"]`, line 0. -/
theorem c5_post_invariant_witness :
    0 < ([['a'], ['b', 'b']] : List Line).length ∧
    (leading ((alignPass [['a'], ['b', 'b']]).getD 0 [])
        + contentLen ((alignPass [['a'], ['b', 'b']]).getD 0 [])
        = maxContentLen (alignPass [['a'], ['b', 'b']])
      ∧ 0 ≤ leading ((alignPass [['a'], ['b', 'b']]).getD 0 [])) :=
  ⟨by decide, c5_post_invariant [['a'], ['b', 'b']] 0 (by decide)⟩

/-- C4: running the recalculation on the result of a completed pass
produces an empty edit set — every line already at its desired leading
width is excluded, so the second run performs zero edits. -/
theorem c4_second_run_no_edits (doc : List Line) :
    computeEdits (alignPass doc) = [] := by
  unfold computeEdits
  rw [maxContentLen_alignPass]
  apply computeEditsAux_eq_nil
  intro t ht
  rcases List.mem_map.mp ht with ⟨s, _hs, rfl⟩
  rw [leading_alignLine, contentLen_alignLine]

/-- C9: one right-alignment pass on the document `["a", "bb", "ccc"]`
yields `["  a", " bb", "ccc"]`. -/
theorem c9_scenario :
    alignPass [['a'], ['b', 'b'], ['c', 'c', 'c']]
      = [[' ', ' ', 'a'], [' ', 'b', 'b'], ['c', 'c', 'c']] := by decide

/-- C3: for a selection endpoint on line `i` at character position `ch`,
the caret column set after the edit equals the minimum of the desired
leading width plus the endpoint's content offset and the new length of
the line. -/
theorem c3_caret_column (doc : List Line) (i ch : Nat) (_h : i < doc.length) :
    (restoredCol doc i ch : Int)
      = min ((desiredLeading (maxContentLen doc) (contentLen (doc.getD i [])) : Int)
              + contentOffset ch (leading (doc.getD i [])))
            ((((alignPass doc).getD i []).length : Int)) := by
  unfold restoredCol contentOffset
  omega

/-- Witness for C3 at the document `["a", "bb"]`, line 0, character 1. -/
theorem c3_caret_column_witness :
    0 < ([['a'], ['b', 'b']] : List Line).length ∧
    ((restoredCol [['a'], ['b', 'b']] 0 1 : Int)
      = min ((desiredLeading (maxContentLen [['a'], ['b', 'b']])
              (contentLen (([['a'], ['b', 'b']] : List Line).getD 0 [])) : Int)
              + contentOffset 1 (leading (([['a'], ['b', 'b']] : List Line).getD 0 [])))
            ((((alignPass [['a'], ['b', 'b']]).getD 0 []).length : Int))) :=
  ⟨by decide, c3_caret_column [['a'], ['b', 'b']] 0 1 (by decide)⟩

/-- C10: the source's `fibonacci` satisfies the defining equations of
the standard Fibonacci sequence: `F 0 = 0`, `F 1 = 1`, and
`F (n + 2) = F (n + 1) + F n`. -/
theorem c10_fibonacci_standard :
    fibonacci 0 = 0 ∧ fibonacci 1 = 1 ∧
      ∀ n : Nat, fibonacci (n + 2) = fibonacci (n + 1) + fibonacci n := by
  refine ⟨rfl, rfl, fun n => ?_⟩
  simp only [fibonacci_eq_fib]
  rw [Nat.fib_add_two, Nat.add_comm]

/-- C6: the Fibonacci-indent width function returns 0 at depth 0 and
`F (d + 1) × 2` otherwise, with `F` the standard Fibonacci sequence
(`F 0 = 0`, `F 1 = 1`). -/
theorem c6_depth_formula (d : Nat) :
    getFibonacciSpacesForDepth d = if d = 0 then 0 else Nat.fib (d + 1) * 2 := by
  unfold getFibonacciSpacesForDepth
  by_cases h : d = 0
  · rw [if_pos h, if_pos h]
  · rw [if_neg h, if_neg h, fibonacci_eq_fib]

/-- C1 counterexample: the spec's table value for depth 2 is wrong — the
code returns 4 spaces at depth 2, not 2. -/
theorem c1_table_counterexample : getFibonacciSpacesForDepth 2 ≠ 2 := by decide

/-- C1 amended: the Fibonacci-indent width function maps depth 0 to 0
spaces, depth 1 to 2, depth 2 to 4, depth 3 to 6, depth 4 to 10, and
depth 5 to 16. -/
theorem c1_amended_table :
    getFibonacciSpacesForDepth 0 = 0 ∧ getFibonacciSpacesForDepth 1 = 2 ∧
      getFibonacciSpacesForDepth 2 = 4 ∧ getFibonacciSpacesForDepth 3 = 6 ∧
      getFibonacciSpacesForDepth 4 = 10 ∧ getFibonacciSpacesForDepth 5 = 16 := by
  decide

/-- C7 counterexample: on the document `["  ab", "c"]` (no empty line),
`align` inserts width 3 on the second line, and running `unalign` 3
times afterwards does not restore the leading whitespace — the first
line loses its original two leading spaces. -/
theorem c7_counterexample :
    (unalignDocument^[alignPad [[' ', ' ', 'a', 'b'], ['c']]]
        (alignDocument [[' ', ' ', 'a', 'b'], ['c']])).map leading
      ≠ ([[' ', ' ', 'a', 'b'], ['c']] : List Line).map leading := by decide

/-- C7 amended: provided no line's text begins with a space character,
running `align` and then `unalign` as many times as the widest inserted
padding restores every line (hence its leading whitespace) exactly. -/
theorem c7_amended_inverse (doc : List Line)
    (h : ∀ t ∈ doc, t.head? ≠ some ' ') :
    unalignDocument^[alignPad doc] (alignDocument doc) = doc := by
  rw [unalignDocument_iterate]
  unfold alignDocument
  rw [List.map_map]
  have key : ∀ t ∈ doc,
      (unalignLine^[alignPad doc] ∘ fun t =>
        if 0 < maxLineLen doc - t.length then
          spaces (maxLineLen doc - t.length) ++ t
        else t) t = id t := by
    intro t ht
    simp only [Function.comp_apply, id_eq]
    rw [alignDocument_branch]
    apply unalign_iter_spaces (h t ht)
    have h1 := minLineLen_le ht
    unfold alignPad
    omega
  rw [List.map_congr_left key, List.map_id]

/-- Witness for C7 amended at the document `["ab", "c"]`. -/
theorem c7_amended_inverse_witness :
    (∀ t ∈ ([['a', 'b'], ['c']] : List Line), t.head? ≠ some ' ') ∧
    unalignDocument^[alignPad [['a', 'b'], ['c']]]
        (alignDocument [['a', 'b'], ['c']]) = [['a', 'b'], ['c']] :=
  ⟨by decide, c7_amended_inverse [['a', 'b'], ['c']] (by decide)⟩

/-- C8: starting from a non-busy state, the busy flag is false again on
every exit path of the pass, and an exception raised while computing or
applying the edits leaves a diagnostic line in the log. -/
theorem c8_busy_flag_released (b closed found : Bool)
    (cRes : Except String (List AlignEdit)) (aRes : Except String Unit)
    (hb : b = false) :
    (runAlignmentFlow b closed found cRes aRes).busy = false ∧
    (closed = false → found = true →
      ((∃ e, cRes = Except.error e) ∨
        ((∃ es, cRes = Except.ok es ∧ es ≠ []) ∧ ∃ e, aRes = Except.error e)) →
      (runAlignmentFlow b closed found cRes aRes).log ≠ []) := by
  subst hb
  cases closed with
  | true => simp [runAlignmentFlow]
  | false =>
    cases found with
    | false => simp [runAlignmentFlow]
    | true =>
      cases cRes with
      | error e => simp [runAlignmentFlow]
      | ok es =>
        cases aRes with
        | ok u =>
          constructor
          · by_cases he : es.isEmpty <;> simp [runAlignmentFlow, he]
          · rintro _ _ (⟨e, hcon⟩ | ⟨_, e, hcon⟩) <;> cases hcon
        | error e =>
          by_cases he : es.isEmpty
          · constructor
            · simp [runAlignmentFlow, he]
            · rintro _ _ (⟨e', hcon⟩ | ⟨⟨es', hes', hne⟩, _⟩)
              · cases hcon
              · cases hes'
                exact absurd (List.isEmpty_iff.mp he) hne
          · constructor
            · simp [runAlignmentFlow, he]
            · intro _ _ _
              simp [runAlignmentFlow, he]

/-- Witness for C8: a compute-time exception on an open, shown document
leaves the flag lowered and an error line in the log. -/
theorem c8_busy_flag_released_witness :
    (false : Bool) = false ∧
    ((runAlignmentFlow false false true (Except.error "boom") (Except.ok ())).busy
        = false ∧
      ((false : Bool) = false → (true : Bool) = true →
        ((∃ e, (Except.error "boom" : Except String (List AlignEdit)) = Except.error e) ∨
          ((∃ es, (Except.error "boom" : Except String (List AlignEdit)) = Except.ok es ∧ es ≠ [])
            ∧ ∃ e, (Except.ok () : Except String Unit) = Except.error e)) →
        (runAlignmentFlow false false true (Except.error "boom") (Except.ok ())).log ≠ [])) :=
  ⟨rfl, c8_busy_flag_released false false true (Except.error "boom") (Except.ok ()) rfl⟩

end RightAligned
